import Mathlib

/-!
Shallow embedding of the todo-list application core (src/script.js): the
Task Registry state (todos, todoIdCounter), the Store Codec (saveTodos,
loadTodos over a single localStorage slot), and the Reconciler
(importTodos with the replace and merge strategies), together with the
invariants and round-trip properties claimed for them.

JavaScript values flowing through the registry are JSON-shaped; they are
modelled by an inductive Json type whose numbers are restricted to the
integer fragment (the program only ever constructs integer ids and
counters). Timestamps produced by Date().toISOString() are threaded as an
explicit now argument. The localStorage slot is modelled as an optional
stored text that either parses to a Json value or is malformed; the empty
string, which the source skips via the same falsy guard as an absent
slot, is modelled as the absent slot.
-/

namespace TodoList

/-- A JSON-shaped JavaScript value, with numbers restricted to the
integer fragment. -/
inductive Json where
  | null
  | bool (b : Bool)
  | num (n : Int)
  | str (s : String)
  | arr (elems : List Json)
  | obj (fields : List (String × Json))

/-- Property lookup on an object field list (first binding wins; the
objects built by the program never carry duplicate keys). -/
def lookupField : List (String × Json) → String → Option Json
  | [], _ => none
  | (k, v) :: rest, key => if k = key then some v else lookupField rest key

/-- JavaScript property access `j.key`, returning none for the undefined
result (absent property, or access on a primitive). Access on null
throws in the source and is handled at the call sites that can see it. -/
def Json.getField : Json → String → Option Json
  | Json.obj fields, key => lookupField fields key
  | _, _ => none

/-- JavaScript ToBoolean on the modelled fragment: null, false, 0 and the
empty string are falsy; arrays and objects are always truthy. -/
def Json.truthy : Json → Bool
  | Json.null => false
  | Json.bool b => b
  | Json.num n => n != 0
  | Json.str s => !s.isEmpty
  | Json.arr _ => true
  | Json.obj _ => true

/-- Array.isArray. -/
def Json.isArray : Json → Bool
  | Json.arr _ => true
  | _ => false

/-- Property assignment on an object field list: overwrite the existing
binding or append a new one. -/
def setFieldList : List (String × Json) → String → Json → List (String × Json)
  | [], key, v => [(key, v)]
  | (k, w) :: rest, key, v =>
      if k = key then (key, v) :: rest else (k, w) :: setFieldList rest key v

/-- JavaScript property assignment `j.key = v`; assignment targets in the
program are always objects, on other values the model is the identity. -/
def Json.setField : Json → String → Json → Json
  | Json.obj fields, key, v => Json.obj (setFieldList fields key v)
  | j, _, _ => j

/-- Field test used by the validity predicate: typeof t.key === "number". -/
def isNumField (t : Json) (key : String) : Bool :=
  match t.getField key with
  | some (Json.num _) => true
  | _ => false

/-- Field test used by the validity predicate: typeof t.key === "string". -/
def isStrField (t : Json) (key : String) : Bool :=
  match t.getField key with
  | some (Json.str _) => true
  | _ => false

/-- The task validity predicate applied uniformly at load and import:
todo && typeof todo.id === "number" && typeof todo.text === "string". -/
def isValidTodo (t : Json) : Bool :=
  t.truthy && isNumField t "id" && isStrField t "text"

/-- The numeric id of a task object (todo.id). Every task the registry
ever holds has a numeric id field; the 0 default is never reached there. -/
def taskId (t : Json) : Int :=
  match t.getField "id" with
  | some (Json.num n) => n
  | _ => 0

/-- Strict equality comparison todo.id === id against a numeric id. -/
def idEq (t : Json) (id : Int) : Bool :=
  match t.getField "id" with
  | some (Json.num n) => n == id
  | _ => false

/-- Math.max over the ids of a task list (callers guard the empty case
with a length check, mirroring the source). -/
def maxIdOf : List Json → Int
  | [] => 0
  | t :: rest => rest.foldl (fun m u => max m (taskId u)) (taskId t)

/-- getNextId: this.todos.length > 0 ? Math.max(...ids) + 1 : 1. -/
def getNextId (todos : List Json) : Int :=
  if todos.length > 0 then maxIdOf todos + 1 else 1

/-- Content of the localStorage slot when present: either text that
JSON.parse rejects, or text parsing to a Json value. -/
inductive StoredText where
  | malformed
  | json (j : Json)

/-- The TodoApp state: the in-memory ordered task list, the next-id
counter, the persistent slot, and the log of every value written to the
slot (oldest first), used to state how often an operation persists. -/
structure AppState where
  todos : List Json
  todoIdCounter : Int
  slot : Option StoredText
  writes : List Json

/-- The persisted envelope { todos, counter, lastSaved } built by saveTodos. -/
def envelopeOf (todos : List Json) (counter : Int) (now : String) : Json :=
  Json.obj [("todos", Json.arr todos), ("counter", Json.num counter),
            ("lastSaved", Json.str now)]

/-- saveTodos: build the envelope with lastSaved = now and write it to the
slot (the write is modelled as succeeding; the catch branch only warns). -/
def saveTodos (s : AppState) (now : String) : AppState :=
  let env := envelopeOf s.todos s.todoIdCounter now
  { s with slot := some (StoredText.json env), writes := s.writes ++ [env] }

/-- The task object literal constructed by addTodo. -/
def newTodo (id : Int) (text now : String) : Json :=
  Json.obj [("id", Json.num id), ("text", Json.str text),
            ("completed", Json.bool false), ("createdAt", Json.str now)]

/-- addTodo: reject empty trimmed text (no mutation, no persist),
otherwise append a task with id = counter, increment the counter and
persist. -/
def addTodo (s : AppState) (input now : String) : AppState :=
  let text := input.trim
  if text = "" then s
  else
    saveTodos
      { s with todos := s.todos ++ [newTodo s.todoIdCounter text now],
               todoIdCounter := s.todoIdCounter + 1 } now

/-- deleteTodo invoked directly: the rendered element for id exists
exactly when a task with that id is present, in which case the list is
filtered by todo.id !== id and persisted (the 300ms removal animation is
view-layer and elided). -/
def deleteTodo (s : AppState) (id : Int) (now : String) : AppState :=
  if s.todos.any (fun t => idEq t id) then
    saveTodos { s with todos := s.todos.filter (fun t => !idEq t id) } now
  else s

/-- The in-place flip todo.completed = !todo.completed (a missing field
reads as undefined, which is falsy). -/
def toggleCompleted (t : Json) : Json :=
  t.setField "completed" (Json.bool (!((t.getField "completed").getD Json.null).truthy))

/-- Flip the completed flag of the first task matching id, as
this.todos.find does. -/
def toggleFirst : List Json → Int → List Json
  | [], _ => []
  | t :: rest, id =>
      if idEq t id then toggleCompleted t :: rest else t :: toggleFirst rest id

/-- toggleTodo: no-op when no task has the id, otherwise flip the first
match and persist. -/
def toggleTodo (s : AppState) (id : Int) (now : String) : AppState :=
  if s.todos.any (fun t => idEq t id) then
    saveTodos { s with todos := toggleFirst s.todos id } now
  else s

/-- clearAllTodos with the confirm dialog accepted: empty the list and
persist; the counter is left untouched. -/
def clearAllTodos (s : AppState) (now : String) : AppState :=
  saveTodos { s with todos := [] } now

/-- exportTodos: the exported artifact is the serialization of the bare
task array (pretty-printing does not change the parsed value). -/
def exportTodos (s : AppState) : Json :=
  Json.arr s.todos

/-- The envelope detection parsedData.todos && Array.isArray(parsedData.todos):
arrays are always truthy, so detection succeeds exactly when the todos
property is an array. -/
def envelopeTodos (j : Json) : Option (List Json) :=
  match j.getField "todos" with
  | some (Json.arr ts) => some ts
  | _ => none

/-- Value assigned to todoIdCounter when the envelope counter field is
truthy. The source stores the raw value and coerces it with JS ToNumber
only at the next increment; on the integer fragment modelled here the two
agree (numbers are kept, true coerces to 1). Truthy values whose JS
coercion falls outside the integer fragment (non-numeric strings and
objects coerce to NaN) are mapped to 0 as a modelling boundary; no claim
depends on them. -/
def Json.toCounter : Json → Int
  | Json.num n => n
  | Json.bool b => if b then 1 else 0
  | _ => 0

/-- The counter rule parsedData.counter || this.getNextId(), evaluated
after this.todos has been set to the filtered loaded list. -/
def loadCounter (j : Json) (loaded : List Json) : Int :=
  match j.getField "counter" with
  | some c => if c.truthy then c.toCounter else getNextId loaded
  | none => getNextId loaded

/-- The two shape tests applied to a parsed non-null slot value: an
envelope-shaped value installs the filtered todos and the
stored-or-recomputed counter; a bare array installs the filtered todos,
recomputes the counter and immediately re-saves; anything else falls
through both tests and leaves the state alone without any error. -/
def loadParsed (s : AppState) (now : String) (j : Json) : AppState × Bool :=
  match envelopeTodos j with
  | some ts =>
      let loaded := ts.filter isValidTodo
      ({ s with todos := loaded, todoIdCounter := loadCounter j loaded }, false)
  | none =>
      match j with
      | Json.arr ts =>
          let loaded := ts.filter isValidTodo
          (saveTodos { s with todos := loaded, todoIdCounter := getNextId loaded } now,
           false)
      | _ => (s, false)

/-- loadTodos: absent slot leaves the state alone; unparseable text, and
a parsed null (whose property access throws), hit the catch handler that
warns and resets to an empty list with counter 1; any other parsed value
goes through the two shape tests. The returned flag records whether
showStorageError fired. -/
def loadTodos (s : AppState) (now : String) : AppState × Bool :=
  match s.slot with
  | none => (s, false)
  | some StoredText.malformed => ({ s with todos := [], todoIdCounter := 1 }, true)
  | some (StoredText.json Json.null) => ({ s with todos := [], todoIdCounter := 1 }, true)
  | some (StoredText.json j) => loadParsed s now j

/-- Content of a user-supplied import file: either text JSON.parse
rejects, or text parsing to a Json value. -/
inductive ImportContent where
  | malformed
  | json (j : Json)

/-- Outcome reported by importTodos: the invalid-format message, the
no-valid-tasks message, or success with the imported-row count. -/
inductive ImportResult where
  | formatError
  | emptyError
  | success (count : Nat)

/-- The import-replace strategy: this.todos = validTodos, then the shared
counter recompute and single persist. -/
def replaceAll (s : AppState) (batch : List Json) (now : String) : AppState :=
  saveTodos { s with todos := batch, todoIdCounter := getNextId batch } now

/-- The forEach loop reassigning todo.id = maxId + index + 1 over the
incoming batch in order. -/
def reassignIds : List Json → Int → List Json
  | [], _ => []
  | t :: rest, nextId => t.setField "id" (Json.num nextId) :: reassignIds rest (nextId + 1)

/-- The import-merge strategy: compute maxId over the existing list (0 if
empty), append the batch with reassigned ids, then the shared counter
recompute and single persist. -/
def mergeAppend (s : AppState) (batch : List Json) (now : String) : AppState :=
  let maxId := if s.todos.length > 0 then maxIdOf s.todos else 0
  let todos := s.todos ++ reassignIds batch (maxId + 1)
  saveTodos { s with todos := todos, todoIdCounter := getNextId todos } now

/-- importTodos on the content of the chosen file: a non-array parse
result (or a parse failure) is an invalid-format error; an array whose
valid entries are empty is the no-valid-tasks error; otherwise the
replace-or-merge choice from the confirm dialog is applied to the
filtered batch and the state is persisted once. Failure cases touch
nothing. -/
def importTodos (s : AppState) (content : ImportContent) (replace : Bool) (now : String) :
    AppState × ImportResult :=
  match content with
  | ImportContent.malformed => (s, ImportResult.formatError)
  | ImportContent.json j =>
      match j with
      | Json.arr entries =>
          let validTodos := entries.filter isValidTodo
          if validTodos.length > 0 then
            (if replace then replaceAll s validTodos now else mergeAppend s validTodos now,
             ImportResult.success validTodos.length)
          else (s, ImportResult.emptyError)
      | _ => (s, ImportResult.formatError)

/-- A registry operation as reachable from the UI: add, toggle, delete,
clear-all, an import with the chosen strategy, and a (re)load of the
current slot. -/
inductive Op where
  | add (text now : String)
  | toggle (id : Int) (now : String)
  | delete (id : Int) (now : String)
  | clearAll (now : String)
  | importOp (content : ImportContent) (replace : Bool) (now : String)
  | load (now : String)

/-- Apply one registry operation to the state. -/
def applyOp (s : AppState) : Op → AppState
  | Op.add text now => addTodo s text now
  | Op.toggle id now => toggleTodo s id now
  | Op.delete id now => deleteTodo s id now
  | Op.clearAll now => clearAllTodos s now
  | Op.importOp content replace now => (importTodos s content replace now).1
  | Op.load now => (loadTodos s now).1

/-- Run a sequence of registry operations in order. -/
def runOps (s : AppState) (ops : List Op) : AppState :=
  ops.foldl applyOp s

/-- The constructor state before loadTodos runs: empty list, counter 1,
nothing written yet, slot as found in the browser. -/
def initState (slot : Option StoredText) : AppState :=
  { todos := [], todoIdCounter := 1, slot := slot, writes := [] }

/-! Reduction equations for the codec on the slot shapes it distinguishes. -/

lemma getField_envelopeOf_todos (ts : List Json) (c : Int) (now : String) :
    (envelopeOf ts c now).getField "todos" = some (Json.arr ts) := rfl

lemma getField_envelopeOf_counter (ts : List Json) (c : Int) (now : String) :
    (envelopeOf ts c now).getField "counter" = some (Json.num c) := rfl

lemma envelopeTodos_envelopeOf (ts : List Json) (c : Int) (now : String) :
    envelopeTodos (envelopeOf ts c now) = some ts := rfl

lemma loadCounter_envelopeOf (ts loaded : List Json) (c : Int) (now : String) :
    loadCounter (envelopeOf ts c now) loaded =
      if c = 0 then getNextId loaded else c := by
  unfold loadCounter
  rw [getField_envelopeOf_counter]
  by_cases hc : c = 0
  · subst hc; simp [Json.truthy]
  · simp [Json.truthy, Json.toCounter, hc]

lemma loadTodos_absent (td : List Json) (c : Int) (w : List Json) (now : String) :
    loadTodos ⟨td, c, none, w⟩ now = (⟨td, c, none, w⟩, false) := rfl

lemma loadTodos_malformed (td : List Json) (c : Int) (w : List Json) (now : String) :
    loadTodos ⟨td, c, some StoredText.malformed, w⟩ now =
      (⟨[], 1, some StoredText.malformed, w⟩, true) := rfl

lemma loadTodos_null (td : List Json) (c : Int) (w : List Json) (now : String) :
    loadTodos ⟨td, c, some (StoredText.json Json.null), w⟩ now =
      (⟨[], 1, some (StoredText.json Json.null), w⟩, true) := rfl

lemma loadTodos_envelope (td : List Json) (c0 : Int) (w : List Json) (now : String)
    (ts : List Json) (c : Int) (ls : String) :
    loadTodos ⟨td, c0, some (StoredText.json (envelopeOf ts c ls)), w⟩ now =
      (⟨ts.filter isValidTodo, loadCounter (envelopeOf ts c ls) (ts.filter isValidTodo),
        some (StoredText.json (envelopeOf ts c ls)), w⟩, false) := rfl

lemma loadTodos_legacy (td : List Json) (c0 : Int) (w : List Json) (now : String)
    (ts : List Json) :
    loadTodos ⟨td, c0, some (StoredText.json (Json.arr ts)), w⟩ now =
      (saveTodos ⟨ts.filter isValidTodo, getNextId (ts.filter isValidTodo),
        some (StoredText.json (Json.arr ts)), w⟩ now, false) := rfl

lemma loadParsed_of_no_shape (s : AppState) (now : String) (j : Json)
    (hE : envelopeTodos j = none) (hA : j.isArray = false) :
    loadParsed s now j = (s, false) := by
  unfold loadParsed
  rw [hE]
  cases j with
  | arr elems => simp [Json.isArray] at hA
  | null => rfl
  | bool b => rfl
  | num n => rfl
  | str str2 => rfl
  | obj fields => rfl

/-! Facts about ids, Math.max folds and getNextId. -/

lemma idEq_eq_true_iff (t : Json) (id : Int) :
    idEq t id = true ↔ t.getField "id" = some (Json.num id) := by
  unfold idEq
  cases h : t.getField "id" with
  | none => simp
  | some v => cases v <;> simp

lemma taskId_of_idEq (t : Json) (id : Int) (h : idEq t id = true) : taskId t = id := by
  rw [idEq_eq_true_iff] at h
  unfold taskId
  rw [h]

lemma foldl_max_init_le (xs : List Json) (a : Int) :
    a ≤ xs.foldl (fun m u => max m (taskId u)) a := by
  induction xs generalizing a with
  | nil => exact le_refl a
  | cons x xs ih => exact le_trans (le_max_left a (taskId x)) (ih (max a (taskId x)))

lemma le_foldl_max_of_mem (xs : List Json) (t : Json) (h : t ∈ xs) :
    ∀ a : Int, taskId t ≤ xs.foldl (fun m u => max m (taskId u)) a := by
  induction xs with
  | nil => cases h
  | cons x xs ih =>
      intro a
      rcases List.mem_cons.mp h with rfl | h2
      · exact le_trans (le_max_right a (taskId t)) (foldl_max_init_le xs _)
      · exact ih h2 (max a (taskId x))

lemma le_maxIdOf_of_mem (ts : List Json) (t : Json) (h : t ∈ ts) :
    taskId t ≤ maxIdOf ts := by
  cases ts with
  | nil => cases h
  | cons x xs =>
      rcases List.mem_cons.mp h with rfl | h2
      · exact foldl_max_init_le xs (taskId t)
      · exact le_foldl_max_of_mem xs t h2 (taskId x)

lemma getNextId_dominates (ts : List Json) : ∀ t ∈ ts, taskId t < getNextId ts := by
  intro t ht
  cases ts with
  | nil => cases ht
  | cons x xs =>
      have h1 : taskId t ≤ maxIdOf (x :: xs) := le_maxIdOf_of_mem _ _ ht
      have h2 : getNextId (x :: xs) = maxIdOf (x :: xs) + 1 := by
        simp [getNextId]
      omega

/-! Facts about property assignment and the validity predicate. -/

lemma lookup_setFieldList_same (fs : List (String × Json)) (key : String) (v : Json) :
    lookupField (setFieldList fs key v) key = some v := by
  induction fs with
  | nil => simp [setFieldList, lookupField]
  | cons kv rest ih =>
      obtain ⟨k, w⟩ := kv
      by_cases hk : k = key
      · simp [setFieldList, lookupField, hk]
      · simp [setFieldList, lookupField, hk, ih]

lemma lookup_setFieldList_ne (fs : List (String × Json)) (key key2 : String) (v : Json)
    (h : key ≠ key2) :
    lookupField (setFieldList fs key v) key2 = lookupField fs key2 := by
  induction fs with
  | nil => simp [setFieldList, lookupField, h]
  | cons kv rest ih =>
      obtain ⟨k, w⟩ := kv
      by_cases hk : k = key
      · subst hk
        simp [setFieldList, lookupField, h]
      · simp [setFieldList, lookupField, hk, ih]

lemma getField_setField_obj_same (fs : List (String × Json)) (key : String) (v : Json) :
    ((Json.obj fs).setField key v).getField key = some v := by
  simp [Json.setField, Json.getField, lookup_setFieldList_same]

lemma getField_setField_ne (j : Json) (key key2 : String) (v : Json) (h : key ≠ key2) :
    (j.setField key v).getField key2 = j.getField key2 := by
  cases j with
  | obj fs => simp [Json.setField, Json.getField, lookup_setFieldList_ne fs key key2 v h]
  | null => rfl
  | bool b => rfl
  | num n => rfl
  | str s2 => rfl
  | arr es => rfl

lemma truthy_setField (j : Json) (key : String) (v : Json) :
    (j.setField key v).truthy = j.truthy := by
  cases j <;> rfl

lemma isValidTodo_eq_true_iff (t : Json) :
    isValidTodo t = true ↔
      (∃ n : Int, t.getField "id" = some (Json.num n)) ∧
      ∃ s2 : String, t.getField "text" = some (Json.str s2) := by
  unfold isValidTodo isNumField isStrField
  constructor
  · intro h
    simp only [Bool.and_eq_true] at h
    obtain ⟨⟨_, hid⟩, htext⟩ := h
    constructor
    · cases hd : t.getField "id" with
      | none => rw [hd] at hid; simp at hid
      | some v => cases v <;> rw [hd] at hid <;> simp at hid ⊢
    · cases hd : t.getField "text" with
      | none => rw [hd] at htext; simp at htext
      | some v => cases v <;> rw [hd] at htext <;> simp at htext ⊢
  · rintro ⟨⟨n, hid⟩, s2, htext⟩
    have hobj : t.truthy = true := by
      cases t with
      | obj fs => rfl
      | null => simp [Json.getField] at hid
      | bool b => simp [Json.getField] at hid
      | num m => simp [Json.getField] at hid
      | str s3 => simp [Json.getField] at hid
      | arr es => simp [Json.getField] at hid
    simp [hobj, hid, htext]

lemma isValidTodo_obj (t : Json) (h : isValidTodo t = true) :
    ∃ fs, t = Json.obj fs := by
  obtain ⟨⟨n, hid⟩, -⟩ := (isValidTodo_eq_true_iff t).mp h
  cases t with
  | obj fs => exact ⟨fs, rfl⟩
  | null => simp [Json.getField] at hid
  | bool b => simp [Json.getField] at hid
  | num m => simp [Json.getField] at hid
  | str s3 => simp [Json.getField] at hid
  | arr es => simp [Json.getField] at hid

lemma getField_id_of_valid (t : Json) (h : isValidTodo t = true) :
    t.getField "id" = some (Json.num (taskId t)) := by
  obtain ⟨⟨n, hid⟩, -⟩ := (isValidTodo_eq_true_iff t).mp h
  rw [hid]
  unfold taskId
  rw [hid]

lemma taskId_setField_id (t : Json) (n : Int) (h : isValidTodo t = true) :
    taskId (t.setField "id" (Json.num n)) = n := by
  obtain ⟨fs, rfl⟩ := isValidTodo_obj t h
  unfold taskId
  rw [getField_setField_obj_same]

lemma isValidTodo_setField_id (t : Json) (n : Int) (h : isValidTodo t = true) :
    isValidTodo (t.setField "id" (Json.num n)) = true := by
  obtain ⟨-, s2, htext⟩ := (isValidTodo_eq_true_iff t).mp h
  obtain ⟨fs, rfl⟩ := isValidTodo_obj t h
  apply (isValidTodo_eq_true_iff _).mpr
  refine ⟨⟨n, getField_setField_obj_same fs "id" (Json.num n)⟩, s2, ?_⟩
  rw [getField_setField_ne _ "id" "text" _ (by decide)]
  exact htext

lemma taskId_toggleCompleted (t : Json) : taskId (toggleCompleted t) = taskId t := by
  unfold toggleCompleted taskId
  rw [getField_setField_ne _ "completed" "id" _ (by decide)]

lemma isValidTodo_toggleCompleted (t : Json) (h : isValidTodo t = true) :
    isValidTodo (toggleCompleted t) = true := by
  obtain ⟨⟨n, hid⟩, s2, htext⟩ := (isValidTodo_eq_true_iff t).mp h
  apply (isValidTodo_eq_true_iff _).mpr
  unfold toggleCompleted
  rw [getField_setField_ne _ "completed" "id" _ (by decide),
      getField_setField_ne _ "completed" "text" _ (by decide)]
  exact ⟨⟨n, hid⟩, s2, htext⟩

/-! Facts about toggleFirst and reassignIds. -/

lemma toggleFirst_map_taskId (ts : List Json) (id : Int) :
    (toggleFirst ts id).map taskId = ts.map taskId := by
  induction ts with
  | nil => rfl
  | cons t rest ih =>
      by_cases h : idEq t id = true
      · simp [toggleFirst, h, taskId_toggleCompleted]
      · simp [toggleFirst, h, ih]

lemma toggleFirst_all_valid (ts : List Json) (id : Int)
    (h : ∀ t ∈ ts, isValidTodo t = true) :
    ∀ t ∈ toggleFirst ts id, isValidTodo t = true := by
  induction ts with
  | nil => intro t ht; cases ht
  | cons x rest ih =>
      by_cases hx : idEq x id = true
      · intro t ht
        simp only [toggleFirst, hx, if_pos] at ht
        rcases List.mem_cons.mp ht with rfl | h2
        · exact isValidTodo_toggleCompleted x (h x (List.mem_cons_self x rest))
        · exact h t (List.mem_cons_of_mem x h2)
      · intro t ht
        simp only [toggleFirst, hx, if_neg] at ht
        rcases List.mem_cons.mp ht with rfl | h2
        · exact h t (List.mem_cons_self t rest)
        · exact ih (fun u hu => h u (List.mem_cons_of_mem x hu)) t h2

lemma length_reassignIds (b : List Json) (n : Int) :
    (reassignIds b n).length = b.length := by
  induction b generalizing n with
  | nil => rfl
  | cons t rest ih => simp [reassignIds, ih]

lemma reassignIds_map_taskId (b : List Json) (n : Int)
    (hb : ∀ t ∈ b, isValidTodo t = true) :
    (reassignIds b n).map taskId =
      (List.range b.length).map (fun k : Nat => n + (k : Int)) := by
  induction b generalizing n with
  | nil => rfl
  | cons t rest ih =>
      have hvalid : isValidTodo t = true := hb t (List.mem_cons_self t rest)
      have hid : taskId (t.setField "id" (Json.num n)) = n := taskId_setField_id t n hvalid
      have htail := ih (n + 1) (fun u hu => hb u (List.mem_cons_of_mem t hu))
      simp only [reassignIds, List.map_cons, hid, List.length_cons,
        List.range_succ_eq_map, List.map_map, htail, Nat.cast_zero, add_zero]
      congr 1
      apply List.map_congr_left
      intro k hk
      simp only [Function.comp_apply, Nat.succ_eq_add_one]
      push_cast
      ring

lemma reassignIds_get (b : List Json) (n : Int) :
    ∀ (k : Nat) (hk : k < b.length),
      (reassignIds b n).get ⟨k, by rw [length_reassignIds]; exact hk⟩ =
        (b.get ⟨k, hk⟩).setField "id" (Json.num (n + (k : Int))) := by
  induction b generalizing n with
  | nil => intro k hk; cases hk
  | cons t rest ih =>
      intro k hk
      cases k with
      | zero => simp [reassignIds]
      | succ k2 =>
          have h2 := ih (n + 1) k2 (Nat.lt_of_succ_lt_succ hk)
          simp only [reassignIds, List.get_cons_succ]
          rw [h2]
          congr 2
          push_cast
          ring

lemma reassignIds_all_valid (b : List Json) (n : Int)
    (hb : ∀ t ∈ b, isValidTodo t = true) :
    ∀ t ∈ reassignIds b n, isValidTodo t = true := by
  induction b generalizing n with
  | nil => intro t ht; cases ht
  | cons x rest ih =>
      intro t ht
      rcases List.mem_cons.mp ht with rfl | h2
      · exact isValidTodo_setField_id x n (hb x (List.mem_cons_self x rest))
      · exact ih (n + 1) (fun u hu => hb u (List.mem_cons_of_mem x hu)) t h2

lemma reassignIds_id_bounds (b : List Json) (n : Int)
    (hb : ∀ t ∈ b, isValidTodo t = true) :
    ∀ t ∈ reassignIds b n, n ≤ taskId t ∧ taskId t < n + b.length := by
  induction b generalizing n with
  | nil => intro t ht; cases ht
  | cons x rest ih =>
      intro t ht
      rcases List.mem_cons.mp ht with rfl | h2
      · rw [taskId_setField_id x n (hb x (List.mem_cons_self x rest))]
        simp only [List.length_cons]
        omega
      · have h3 := ih (n + 1) (fun u hu => hb u (List.mem_cons_of_mem x hu)) t h2
        simp only [List.length_cons]
        omega

lemma reassignIds_nodup_ids (b : List Json) (n : Int)
    (hb : ∀ t ∈ b, isValidTodo t = true) :
    ((reassignIds b n).map taskId).Nodup := by
  rw [reassignIds_map_taskId b n hb]
  apply List.Nodup.map
  · intro k1 k2 hk
    have : n + (k1 : Int) = n + (k2 : Int) := hk
    omega
  · exact List.nodup_range _

/-! The registry invariant: every held task passes the validity
predicate and every held id is strictly below the next-id counter; the U
variant additionally demands pairwise-distinct ids. The slot predicate
states that the store holds either nothing or an envelope whose payload
satisfies the same conditions. -/

def CoreOk (todos : List Json) (counter : Int) : Prop :=
  (∀ t ∈ todos, isValidTodo t = true) ∧ (∀ t ∈ todos, taskId t < counter)

def CoreOkU (todos : List Json) (counter : Int) : Prop :=
  CoreOk todos counter ∧ (todos.map taskId).Nodup

def SlotOkWith (P : List Json → Int → Prop) : Option StoredText → Prop
  | none => True
  | some StoredText.malformed => False
  | some (StoredText.json j) => ∃ ts c ls, j = envelopeOf ts c ls ∧ P ts c

def StateOkWith (P : List Json → Int → Prop) (s : AppState) : Prop :=
  P s.todos s.todoIdCounter ∧ SlotOkWith P s.slot

/-- Operations under which id uniqueness is preserved: everything except
an import-replace whose filtered batch repeats an id. -/
def SafeOp : Op → Prop
  | Op.importOp (ImportContent.json (Json.arr entries)) true _ =>
      ((entries.filter isValidTodo).map taskId).Nodup
  | _ => True

lemma addTodo_eq (s : AppState) (input now : String) :
    addTodo s input now =
      if input.trim = "" then s
      else saveTodos { s with todos := s.todos ++ [newTodo s.todoIdCounter input.trim now],
                              todoIdCounter := s.todoIdCounter + 1 } now := rfl

lemma isValidTodo_newTodo (id : Int) (text now : String) :
    isValidTodo (newTodo id text now) = true := rfl

lemma taskId_newTodo (id : Int) (text now : String) :
    taskId (newTodo id text now) = id := rfl

lemma saveTodos_stateOk (P : List Json → Int → Prop) (s : AppState) (now : String)
    (h : P s.todos s.todoIdCounter) : StateOkWith P (saveTodos s now) :=
  ⟨h, ⟨s.todos, s.todoIdCounter, now, rfl, h⟩⟩

lemma coreOk_nil (c : Int) : CoreOk [] c :=
  ⟨fun t ht => absurd ht (List.not_mem_nil t), fun t ht => absurd ht (List.not_mem_nil t)⟩

lemma coreOk_getNextId (ts : List Json) (h : ∀ t ∈ ts, isValidTodo t = true) :
    CoreOk ts (getNextId ts) :=
  ⟨h, getNextId_dominates ts⟩

lemma coreOk_filter (ts : List Json) (c : Int) (p : Json → Bool) (h : CoreOk ts c) :
    CoreOk (ts.filter p) c :=
  ⟨fun t ht => h.1 t (List.mem_of_mem_filter ht),
   fun t ht => h.2 t (List.mem_of_mem_filter ht)⟩

lemma coreOk_append_new (td : List Json) (c : Int) (text now : String) (h : CoreOk td c) :
    CoreOk (td ++ [newTodo c text now]) (c + 1) := by
  obtain ⟨h1, h2⟩ := h
  constructor
  · intro t ht
    rcases List.mem_append.mp ht with h3 | h3
    · exact h1 t h3
    · rcases List.mem_singleton.mp h3 with rfl
      exact isValidTodo_newTodo c text now
  · intro t ht
    rcases List.mem_append.mp ht with h3 | h3
    · have := h2 t h3
      omega
    · rcases List.mem_singleton.mp h3 with rfl
      rw [taskId_newTodo]
      omega

lemma nodup_append_new (td : List Json) (c : Int) (text now : String)
    (h2 : ∀ t ∈ td, taskId t < c) (hn : (td.map taskId).Nodup) :
    ((td ++ [newTodo c text now]).map taskId).Nodup := by
  rw [List.map_append]
  refine List.Nodup.append hn (by simp) ?_
  intro a ha hb
  simp only [List.map_cons, List.map_nil, List.mem_singleton, taskId_newTodo] at hb
  subst hb
  obtain ⟨t, ht, hta⟩ := List.mem_map.mp ha
  have := h2 t ht
  omega

lemma nodup_filter_ids (td : List Json) (p : Json → Bool)
    (hn : (td.map taskId).Nodup) : ((td.filter p).map taskId).Nodup :=
  List.Nodup.sublist (List.Sublist.map taskId (List.filter_sublist td)) hn

lemma mem_le_mergeBase (td : List Json) (t : Json) (h : t ∈ td) :
    taskId t ≤ (if td.length > 0 then maxIdOf td else 0) := by
  cases td with
  | nil => cases h
  | cons x xs =>
      rw [if_pos (by simp)]
      exact le_maxIdOf_of_mem _ _ h

lemma valid_merge_todos (td batch : List Json)
    (hv : ∀ t ∈ td, isValidTodo t = true)
    (hb : ∀ t ∈ batch, isValidTodo t = true) :
    ∀ t ∈ td ++ reassignIds batch ((if td.length > 0 then maxIdOf td else 0) + 1),
      isValidTodo t = true := by
  intro t ht
  rcases List.mem_append.mp ht with h3 | h3
  · exact hv t h3
  · exact reassignIds_all_valid batch _ hb t h3

lemma nodup_merge_ids (td batch : List Json)
    (hn : (td.map taskId).Nodup)
    (hb : ∀ t ∈ batch, isValidTodo t = true) :
    ((td ++ reassignIds batch
        ((if td.length > 0 then maxIdOf td else 0) + 1)).map taskId).Nodup := by
  rw [List.map_append]
  refine List.Nodup.append hn (reassignIds_nodup_ids batch _ hb) ?_
  intro a ha hb2
  obtain ⟨t, ht, hta⟩ := List.mem_map.mp ha
  obtain ⟨u, hu, hua⟩ := List.mem_map.mp hb2
  have h1 : taskId t ≤ (if td.length > 0 then maxIdOf td else 0) := mem_le_mergeBase td t ht
  have h2 := (reassignIds_id_bounds batch _ hb u hu).1
  omega

lemma importTodos_arr_eq (s : AppState) (entries : List Json) (replace : Bool)
    (now : String) :
    importTodos s (ImportContent.json (Json.arr entries)) replace now =
      if (entries.filter isValidTodo).length > 0 then
        (if replace then replaceAll s (entries.filter isValidTodo) now
         else mergeAppend s (entries.filter isValidTodo) now,
         ImportResult.success (entries.filter isValidTodo).length)
      else (s, ImportResult.emptyError) := rfl

lemma importTodos_success_eq (s : AppState) (entries : List Json) (replace : Bool)
    (now : String) (hlen : (entries.filter isValidTodo).length > 0) :
    importTodos s (ImportContent.json (Json.arr entries)) replace now =
      (if replace then replaceAll s (entries.filter isValidTodo) now
       else mergeAppend s (entries.filter isValidTodo) now,
       ImportResult.success (entries.filter isValidTodo).length) := by
  rw [importTodos_arr_eq, if_pos hlen]

lemma importTodos_empty_eq (s : AppState) (entries : List Json) (replace : Bool)
    (now : String) (hlen : ¬ (entries.filter isValidTodo).length > 0) :
    importTodos s (ImportContent.json (Json.arr entries)) replace now =
      (s, ImportResult.emptyError) := by
  rw [importTodos_arr_eq, if_neg hlen]

lemma stateOk_applyOp (s : AppState) (op : Op) (h : StateOkWith CoreOk s) :
    StateOkWith CoreOk (applyOp s op) := by
  obtain ⟨hP, hS⟩ := h
  cases op with
  | add text now =>
      show StateOkWith CoreOk (addTodo s text now)
      rw [addTodo_eq]
      split_ifs with htext
      · exact ⟨hP, hS⟩
      · exact saveTodos_stateOk _ _ _ (coreOk_append_new s.todos s.todoIdCounter _ now hP)
  | toggle id now =>
      show StateOkWith CoreOk (toggleTodo s id now)
      unfold toggleTodo
      split_ifs with hany
      · apply saveTodos_stateOk
        refine ⟨toggleFirst_all_valid s.todos id hP.1, ?_⟩
        intro t ht
        have hmem : taskId t ∈ (toggleFirst s.todos id).map taskId :=
          List.mem_map_of_mem taskId ht
        rw [toggleFirst_map_taskId] at hmem
        obtain ⟨u, hu, he⟩ := List.mem_map.mp hmem
        rw [← he]
        exact hP.2 u hu
      · exact ⟨hP, hS⟩
  | delete id now =>
      show StateOkWith CoreOk (deleteTodo s id now)
      unfold deleteTodo
      split_ifs with hany
      · exact saveTodos_stateOk _ _ _ (coreOk_filter _ _ _ hP)
      · exact ⟨hP, hS⟩
  | clearAll now =>
      exact saveTodos_stateOk _ _ _ (coreOk_nil _)
  | importOp content replace now =>
      show StateOkWith CoreOk (importTodos s content replace now).1
      cases content with
      | malformed => exact ⟨hP, hS⟩
      | json j =>
          cases j with
          | arr entries =>
              by_cases hlen : (entries.filter isValidTodo).length > 0
              · rw [importTodos_success_eq s entries replace now hlen]
                cases replace with
                | false =>
                    show StateOkWith CoreOk (mergeAppend s (entries.filter isValidTodo) now)
                    apply saveTodos_stateOk
                    exact coreOk_getNextId _
                      (valid_merge_todos s.todos _ hP.1 (fun t ht => (List.mem_filter.mp ht).2))
                | true =>
                    show StateOkWith CoreOk (replaceAll s (entries.filter isValidTodo) now)
                    apply saveTodos_stateOk
                    exact coreOk_getNextId _ (fun t ht => (List.mem_filter.mp ht).2)
              · rw [importTodos_empty_eq s entries replace now hlen]
                exact ⟨hP, hS⟩
          | null => exact ⟨hP, hS⟩
          | bool b => exact ⟨hP, hS⟩
          | num n => exact ⟨hP, hS⟩
          | str s2 => exact ⟨hP, hS⟩
          | obj fields => exact ⟨hP, hS⟩
  | load now =>
      show StateOkWith CoreOk (loadTodos s now).1
      obtain ⟨td, c0, slot, w⟩ := s
      cases slot with
      | none => exact ⟨hP, hS⟩
      | some st =>
          cases st with
          | malformed => exact absurd hS (by simp [SlotOkWith])
          | json j =>
              have hS2 : ∃ ts c ls, j = envelopeOf ts c ls ∧ CoreOk ts c := hS
              obtain ⟨ts, c, ls, rfl, hcore⟩ := hS2
              rw [loadTodos_envelope, loadCounter_envelopeOf,
                  List.filter_eq_self.mpr hcore.1]
              refine ⟨?_, ⟨ts, c, ls, rfl, hcore⟩⟩
              show CoreOk ts (if c = 0 then getNextId ts else c)
              by_cases hc : c = 0
              · rw [if_pos hc]
                exact coreOk_getNextId ts hcore.1
              · rw [if_neg hc]
                exact hcore

lemma stateOkU_applyOp (s : AppState) (op : Op) (h : StateOkWith CoreOkU s)
    (hsafe : SafeOp op) : StateOkWith CoreOkU (applyOp s op) := by
  obtain ⟨⟨hP, hN⟩, hS⟩ := h
  cases op with
  | add text now =>
      show StateOkWith CoreOkU (addTodo s text now)
      rw [addTodo_eq]
      split_ifs with htext
      · exact ⟨⟨hP, hN⟩, hS⟩
      · exact saveTodos_stateOk _ _ _
          ⟨coreOk_append_new s.todos s.todoIdCounter _ now hP,
           nodup_append_new s.todos s.todoIdCounter _ now hP.2 hN⟩
  | toggle id now =>
      show StateOkWith CoreOkU (toggleTodo s id now)
      unfold toggleTodo
      split_ifs with hany
      · apply saveTodos_stateOk
        refine ⟨⟨toggleFirst_all_valid s.todos id hP.1, ?_⟩, ?_⟩
        · intro t ht
          have hmem : taskId t ∈ (toggleFirst s.todos id).map taskId :=
            List.mem_map_of_mem taskId ht
          rw [toggleFirst_map_taskId] at hmem
          obtain ⟨u, hu, he⟩ := List.mem_map.mp hmem
          rw [← he]
          exact hP.2 u hu
        · rw [toggleFirst_map_taskId]
          exact hN
      · exact ⟨⟨hP, hN⟩, hS⟩
  | delete id now =>
      show StateOkWith CoreOkU (deleteTodo s id now)
      unfold deleteTodo
      split_ifs with hany
      · exact saveTodos_stateOk _ _ _
          ⟨coreOk_filter _ _ _ hP, nodup_filter_ids s.todos _ hN⟩
      · exact ⟨⟨hP, hN⟩, hS⟩
  | clearAll now =>
      exact saveTodos_stateOk _ _ _ ⟨coreOk_nil _, List.nodup_nil⟩
  | importOp content replace now =>
      show StateOkWith CoreOkU (importTodos s content replace now).1
      cases content with
      | malformed => exact ⟨⟨hP, hN⟩, hS⟩
      | json j =>
          cases j with
          | arr entries =>
              by_cases hlen : (entries.filter isValidTodo).length > 0
              · rw [importTodos_success_eq s entries replace now hlen]
                cases replace with
                | false =>
                    show StateOkWith CoreOkU (mergeAppend s (entries.filter isValidTodo) now)
                    apply saveTodos_stateOk
                    refine ⟨coreOk_getNextId _
                      (valid_merge_todos s.todos _ hP.1 (fun t ht => (List.mem_filter.mp ht).2)),
                      ?_⟩
                    exact nodup_merge_ids s.todos _ hN (fun t ht => (List.mem_filter.mp ht).2)
                | true =>
                    show StateOkWith CoreOkU (replaceAll s (entries.filter isValidTodo) now)
                    apply saveTodos_stateOk
                    refine ⟨coreOk_getNextId _ (fun t ht => (List.mem_filter.mp ht).2), ?_⟩
                    exact hsafe
              · rw [importTodos_empty_eq s entries replace now hlen]
                exact ⟨⟨hP, hN⟩, hS⟩
          | null => exact ⟨⟨hP, hN⟩, hS⟩
          | bool b => exact ⟨⟨hP, hN⟩, hS⟩
          | num n => exact ⟨⟨hP, hN⟩, hS⟩
          | str s2 => exact ⟨⟨hP, hN⟩, hS⟩
          | obj fields => exact ⟨⟨hP, hN⟩, hS⟩
  | load now =>
      show StateOkWith CoreOkU (loadTodos s now).1
      obtain ⟨td, c0, slot, w⟩ := s
      cases slot with
      | none => exact ⟨⟨hP, hN⟩, hS⟩
      | some st =>
          cases st with
          | malformed => exact absurd hS (by simp [SlotOkWith])
          | json j =>
              have hS2 : ∃ ts c ls, j = envelopeOf ts c ls ∧ CoreOkU ts c := hS
              obtain ⟨ts, c, ls, rfl, hcore⟩ := hS2
              rw [loadTodos_envelope, loadCounter_envelopeOf,
                  List.filter_eq_self.mpr hcore.1.1]
              refine ⟨?_, ⟨ts, c, ls, rfl, hcore⟩⟩
              refine ⟨?_, hcore.2⟩
              show CoreOk ts (if c = 0 then getNextId ts else c)
              by_cases hc : c = 0
              · rw [if_pos hc]
                exact coreOk_getNextId ts hcore.1.1
              · rw [if_neg hc]
                exact hcore.1

lemma stateOk_runOps (ops : List Op) (s : AppState) (h : StateOkWith CoreOk s) :
    StateOkWith CoreOk (runOps s ops) := by
  induction ops generalizing s with
  | nil => exact h
  | cons op rest ih => exact ih _ (stateOk_applyOp s op h)

lemma stateOkU_runOps (ops : List Op) (s : AppState) (h : StateOkWith CoreOkU s)
    (hsafe : ∀ op ∈ ops, SafeOp op) : StateOkWith CoreOkU (runOps s ops) := by
  induction ops generalizing s with
  | nil => exact h
  | cons op rest ih =>
      exact ih _ (stateOkU_applyOp s op h (hsafe op (List.mem_cons_self op rest)))
        (fun op2 h2 => hsafe op2 (List.mem_cons_of_mem op h2))

lemma stateOk_initState : StateOkWith CoreOk (initState none) :=
  ⟨coreOk_nil 1, trivial⟩

lemma stateOkU_initState : StateOkWith CoreOkU (initState none) :=
  ⟨⟨coreOk_nil 1, List.nodup_nil⟩, trivial⟩

/-! Every task ever held by the registry passes the validity predicate,
no matter what the browser slot initially contained: add constructs a
valid task, load and import filter with the predicate, and merge only
rewrites ids. -/

def AllValid (s : AppState) : Prop := ∀ t ∈ s.todos, isValidTodo t = true

lemma loadParsed_envelope_shape (s : AppState) (now : String) (j : Json) (ts : List Json)
    (hE : envelopeTodos j = some ts) :
    loadParsed s now j =
      ({ s with todos := ts.filter isValidTodo,
                todoIdCounter := loadCounter j (ts.filter isValidTodo) }, false) := by
  unfold loadParsed
  rw [hE]

lemma loadTodos_obj (td : List Json) (c0 : Int) (w : List Json) (now : String)
    (fields : List (String × Json)) :
    loadTodos ⟨td, c0, some (StoredText.json (Json.obj fields)), w⟩ now =
      loadParsed ⟨td, c0, some (StoredText.json (Json.obj fields)), w⟩ now
        (Json.obj fields) := rfl

lemma loadTodos_prim_bool (td : List Json) (c0 : Int) (w : List Json) (now : String)
    (b : Bool) :
    loadTodos ⟨td, c0, some (StoredText.json (Json.bool b)), w⟩ now =
      (⟨td, c0, some (StoredText.json (Json.bool b)), w⟩, false) := rfl

lemma loadTodos_prim_num (td : List Json) (c0 : Int) (w : List Json) (now : String)
    (n : Int) :
    loadTodos ⟨td, c0, some (StoredText.json (Json.num n)), w⟩ now =
      (⟨td, c0, some (StoredText.json (Json.num n)), w⟩, false) := rfl

lemma loadTodos_prim_str (td : List Json) (c0 : Int) (w : List Json) (now : String)
    (s2 : String) :
    loadTodos ⟨td, c0, some (StoredText.json (Json.str s2)), w⟩ now =
      (⟨td, c0, some (StoredText.json (Json.str s2)), w⟩, false) := rfl

lemma allValid_filter (ts : List Json) : ∀ t ∈ ts.filter isValidTodo, isValidTodo t = true :=
  fun _t ht => (List.mem_filter.mp ht).2

lemma allValid_applyOp (s : AppState) (op : Op) (h : AllValid s) : AllValid (applyOp s op) := by
  cases op with
  | add text now =>
      show AllValid (addTodo s text now)
      rw [addTodo_eq]
      split_ifs with htext
      · exact h
      · intro t ht
        rcases List.mem_append.mp ht with h3 | h3
        · exact h t h3
        · rcases List.mem_singleton.mp h3 with rfl
          exact isValidTodo_newTodo _ _ now
  | toggle id now =>
      show AllValid (toggleTodo s id now)
      unfold toggleTodo
      split_ifs with hany
      · exact toggleFirst_all_valid s.todos id h
      · exact h
  | delete id now =>
      show AllValid (deleteTodo s id now)
      unfold deleteTodo
      split_ifs with hany
      · intro t ht
        exact h t (List.mem_of_mem_filter ht)
      · exact h
  | clearAll now =>
      intro t ht
      exact absurd ht (List.not_mem_nil t)
  | importOp content replace now =>
      show AllValid (importTodos s content replace now).1
      cases content with
      | malformed => exact h
      | json j =>
          cases j with
          | arr entries =>
              by_cases hlen : (entries.filter isValidTodo).length > 0
              · rw [importTodos_success_eq s entries replace now hlen]
                cases replace with
                | false =>
                    show AllValid (mergeAppend s (entries.filter isValidTodo) now)
                    exact valid_merge_todos s.todos _ h (allValid_filter entries)
                | true =>
                    show AllValid (replaceAll s (entries.filter isValidTodo) now)
                    exact allValid_filter entries
              · rw [importTodos_empty_eq s entries replace now hlen]
                exact h
          | null => exact h
          | bool b => exact h
          | num n => exact h
          | str s2 => exact h
          | obj fields => exact h
  | load now =>
      show AllValid (loadTodos s now).1
      obtain ⟨td, c0, slot, w⟩ := s
      cases slot with
      | none => exact h
      | some st =>
          cases st with
          | malformed =>
              rw [loadTodos_malformed]
              intro t ht
              exact absurd ht (List.not_mem_nil t)
          | json j =>
              cases j with
              | null =>
                  rw [loadTodos_null]
                  intro t ht
                  exact absurd ht (List.not_mem_nil t)
              | arr ts =>
                  rw [loadTodos_legacy]
                  exact allValid_filter ts
              | bool b => rw [loadTodos_prim_bool]; exact h
              | num n => rw [loadTodos_prim_num]; exact h
              | str s2 => rw [loadTodos_prim_str]; exact h
              | obj fields =>
                  rw [loadTodos_obj]
                  cases hE : envelopeTodos (Json.obj fields) with
                  | some ts =>
                      rw [loadParsed_envelope_shape _ now _ ts hE]
                      exact allValid_filter ts
                  | none =>
                      rw [loadParsed_of_no_shape _ now _ hE rfl]
                      exact h

lemma allValid_runOps (ops : List Op) (s : AppState) (h : AllValid s) :
    AllValid (runOps s ops) := by
  induction ops generalizing s with
  | nil => exact h
  | cons op rest ih => exact ih _ (allValid_applyOp s op h)

lemma allValid_initState (slot : Option StoredText) : AllValid (initState slot) :=
  fun t ht => absurd ht (List.not_mem_nil t)

lemma loadTodos_slot_obj (s : AppState) (now : String) (fields : List (String × Json))
    (hslot : s.slot = some (StoredText.json (Json.obj fields))) :
    loadTodos s now = loadParsed s now (Json.obj fields) := by
  obtain ⟨td, c0, slot, w⟩ := s
  change slot = some (StoredText.json (Json.obj fields)) at hslot
  subst hslot
  rfl

/-! The claims. -/

/-- Claim C1, counterexample: an import-replace installs the supplied
valid tasks verbatim, so a batch repeating an id produces two registry
tasks with the same id. The single-operation sequence importing
two valid tasks that both carry id 1 under the replace strategy yields a
collection whose ids are [1, 1]. -/
theorem C1_counterexample :
    ¬ (((runOps (initState none)
        [Op.importOp (ImportContent.json (Json.arr
          [Json.obj [("id", Json.num 1), ("text", Json.str "a")],
           Json.obj [("id", Json.num 1), ("text", Json.str "b")]])) true "t1"]).todos.map
        taskId).Nodup) := by decide

/-- Claim C1, amended: starting from an empty store, every sequence of
registry operations in which each import-replace batch carries
pairwise-distinct ids among its valid entries leaves the task collection
with pairwise-distinct ids; in particular this covers all sequences of
add, toggle, delete, clearAll, import-merge and load operations. -/
theorem C1_unique_ids (ops : List Op) (h : ∀ op ∈ ops, SafeOp op) :
    ((runOps (initState none) ops).todos.map taskId).Nodup :=
  (stateOkU_runOps ops (initState none) stateOkU_initState h).1.2

/-- Claim C1, witness: two adds from the initial state produce
pairwise-distinct ids. -/
theorem C1_witness :
    ((runOps (initState none) [Op.add "a" "t1", Op.add "b" "t2"]).todos.map taskId).Nodup :=
  C1_unique_ids [Op.add "a" "t1", Op.add "b" "t2"] (by
    intro op hop
    rcases List.mem_cons.mp hop with rfl | hop
    · exact trivial
    · rcases List.mem_cons.mp hop with rfl | hop
      · exact trivial
      · exact absurd hop (List.not_mem_nil op))

/-- Claim C2, counterexample: a load adopts any truthy stored counter
unchecked, so loading an externally written envelope with counter 3 and
a single task with id 5 leaves the counter at 3, not above the maximum
present id. -/
theorem C2_counterexample :
    ¬ (∀ t ∈ (runOps (initState (some (StoredText.json
          (envelopeOf [newTodo 5 "x" "t0"] 3 "t0")))) [Op.load "t1"]).todos,
        taskId t < (runOps (initState (some (StoredText.json
          (envelopeOf [newTodo 5 "x" "t0"] 3 "t0")))) [Op.load "t1"]).todoIdCounter) := by
  decide

/-- Claim C2, amended: starting from an empty store, after every sequence
of registry operations every present id is strictly below the next-id
counter; clearAll leaves the counter untouched, so ids are not reused by
subsequent adds. A load of an externally written envelope may adopt a
stored counter that does not exceed the present ids. -/
theorem C2_counter_exceeds_ids (ops : List Op) (s : AppState) (now : String) :
    (∀ t ∈ (runOps (initState none) ops).todos,
        taskId t < (runOps (initState none) ops).todoIdCounter) ∧
    (clearAllTodos s now).todoIdCounter = s.todoIdCounter :=
  ⟨(stateOk_runOps ops (initState none) stateOk_initState).1.2, rfl⟩

/-- Claim C2, witness: after an add and a clearAll from the initial
state every present id (vacuously) sits below the counter, and clearAll
keeps the counter of the initial state. -/
theorem C2_witness :
    (∀ t ∈ (runOps (initState none) [Op.add "a" "t1", Op.clearAll "t2"]).todos,
        taskId t < (runOps (initState none) [Op.add "a" "t1", Op.clearAll "t2"]).todoIdCounter) ∧
    (clearAllTodos (initState none) "t3").todoIdCounter = (initState none).todoIdCounter :=
  C2_counter_exceeds_ids [Op.add "a" "t1", Op.clearAll "t2"] (initState none) "t3"

/-- Claim C3, counterexample: the stored counter is adopted whenever it
is truthy, not only when it is a positive integer: loading an envelope
with an empty task list and counter -5 leaves the counter at -5, where
the claim demands the recomputed value 1. -/
theorem C3_counterexample :
    (loadTodos (initState (some (StoredText.json (envelopeOf [] (-5) "t0"))))
        "t1").1.todoIdCounter = -5 ∧
    getNextId ([] : List Json) = 1 ∧ ((-5 : Int) ≠ 1) := by decide

/-- Claim C3, amended: when a load reads an envelope, the counter is
taken from the stored counter field exactly when that field is present
and truthy — for a numeric field, nonzero, negative values included;
when the field is absent (or zero) the counter is recomputed as
max(id over the loaded tasks) + 1, or 1 if no tasks were loaded. -/
theorem C3_counter_rule (s : AppState) (j : Json) (ts : List Json) (now : String)
    (hslot : s.slot = some (StoredText.json j))
    (ht : j.getField "todos" = some (Json.arr ts)) :
    (loadTodos s now).1.todos = ts.filter isValidTodo ∧
    (∀ n : Int, j.getField "counter" = some (Json.num n) →
        (loadTodos s now).1.todoIdCounter =
          if n = 0 then getNextId (ts.filter isValidTodo) else n) ∧
    (j.getField "counter" = none →
        (loadTodos s now).1.todoIdCounter = getNextId (ts.filter isValidTodo)) := by
  obtain ⟨fields, rfl⟩ : ∃ fs, j = Json.obj fs := by
    cases j with
    | obj fs => exact ⟨fs, rfl⟩
    | null => simp [Json.getField] at ht
    | bool b => simp [Json.getField] at ht
    | num n => simp [Json.getField] at ht
    | str s2 => simp [Json.getField] at ht
    | arr es => simp [Json.getField] at ht
  have hE : envelopeTodos (Json.obj fields) = some ts := by
    unfold envelopeTodos
    rw [ht]
  rw [loadTodos_slot_obj s now fields hslot, loadParsed_envelope_shape _ now _ ts hE]
  refine ⟨rfl, ?_, ?_⟩
  · intro n hc
    show loadCounter (Json.obj fields) (ts.filter isValidTodo) = _
    unfold loadCounter
    rw [hc]
    by_cases hn : n = 0
    · subst hn
      simp [Json.truthy]
    · simp [Json.truthy, Json.toCounter, hn]
  · intro hc
    show loadCounter (Json.obj fields) (ts.filter isValidTodo) = _
    unfold loadCounter
    rw [hc]

/-- Claim C3, witness: an envelope holding no tasks and the truthy
counter -7 makes the load keep -7 (the else branch of the amended
rule). -/
theorem C3_witness :
    (loadTodos (initState (some (StoredText.json (envelopeOf [] (-7) "t0"))))
        "t1").1.todoIdCounter =
      if (-7 : Int) = 0 then getNextId (([] : List Json).filter isValidTodo) else -7 :=
  (C3_counter_rule (initState (some (StoredText.json (envelopeOf [] (-7) "t0"))))
    (envelopeOf [] (-7) "t0") [] "t1" rfl rfl).2.1 (-7) rfl

/-- Claim C8, counterexample: a slot whose content parses to the number
42 matches neither the envelope nor the bare-array shape, yet the load
neither reports a storage error nor touches the state — the claimed
StorageCorruptError failure does not happen. -/
theorem C8_counterexample :
    (loadTodos (initState (some (StoredText.json (Json.num 42)))) "t1").2 = false ∧
    (loadTodos (initState (some (StoredText.json (Json.num 42)))) "t1").1 =
      initState (some (StoredText.json (Json.num 42))) := ⟨rfl, rfl⟩

/-- Claim C8, amended: a present slot that fails to parse, or parses to
null, makes the load fail with the storage error and reset to an empty
collection with counter 1; a slot parsing to any other value that
matches neither the envelope shape nor the bare-array shape is silently
ignored — the load reports no error and leaves the state unchanged. -/
theorem C8_load_failure_modes (s : AppState) (now : String) :
    (s.slot = some StoredText.malformed →
        loadTodos s now = ({ s with todos := [], todoIdCounter := 1 }, true)) ∧
    (s.slot = some (StoredText.json Json.null) →
        loadTodos s now = ({ s with todos := [], todoIdCounter := 1 }, true)) ∧
    (∀ j, s.slot = some (StoredText.json j) → j ≠ Json.null →
        envelopeTodos j = none → j.isArray = false → loadTodos s now = (s, false)) := by
  obtain ⟨td, c0, slot, w⟩ := s
  refine ⟨?_, ?_, ?_⟩
  · intro hslot
    change slot = some StoredText.malformed at hslot
    subst hslot
    rfl
  · intro hslot
    change slot = some (StoredText.json Json.null) at hslot
    subst hslot
    rfl
  · intro j hslot hnull hE hA
    change slot = some (StoredText.json j) at hslot
    subst hslot
    cases j with
    | null => exact absurd rfl hnull
    | arr es => simp [Json.isArray] at hA
    | bool b => rfl
    | num n => rfl
    | str s2 => rfl
    | obj fields =>
        rw [show loadTodos ⟨td, c0, some (StoredText.json (Json.obj fields)), w⟩ now =
              loadParsed ⟨td, c0, some (StoredText.json (Json.obj fields)), w⟩ now
                (Json.obj fields) from rfl]
        exact loadParsed_of_no_shape _ now _ hE hA

/-- Claim C8, witness: unparseable stored text makes the load reset to
the empty collection with counter 1 and report the storage error. -/
theorem C8_witness :
    loadTodos (initState (some StoredText.malformed)) "t1" =
      ({ initState (some StoredText.malformed) with todos := [], todoIdCounter := 1 }, true) :=
  (C8_load_failure_modes (initState (some StoredText.malformed)) "t1").1 rfl

lemma foldl_max_cases (xs : List Json) (a : Int) :
    xs.foldl (fun m u => max m (taskId u)) a = a ∨
      ∃ t ∈ xs, xs.foldl (fun m u => max m (taskId u)) a = taskId t := by
  induction xs generalizing a with
  | nil => exact Or.inl rfl
  | cons x xs ih =>
      have hstep : (x :: xs).foldl (fun m u => max m (taskId u)) a =
          xs.foldl (fun m u => max m (taskId u)) (max a (taskId x)) := rfl
      rcases ih (max a (taskId x)) with h | ⟨t, ht, he⟩
      · rcases le_total a (taskId x) with hle | hle
        · right
          refine ⟨x, List.mem_cons_self x xs, ?_⟩
          rw [hstep, h]
          exact max_eq_right hle
        · left
          rw [hstep, h]
          exact max_eq_left hle
      · right
        exact ⟨t, List.mem_cons_of_mem x ht, by rw [hstep, he]⟩

lemma maxIdOf_attained (ts : List Json) (h : ts ≠ []) :
    ∃ t ∈ ts, maxIdOf ts = taskId t := by
  cases ts with
  | nil => exact absurd rfl h
  | cons x xs =>
      rcases foldl_max_cases xs (taskId x) with h2 | ⟨t, ht, he⟩
      · exact ⟨x, List.mem_cons_self x xs, h2⟩
      · exact ⟨t, List.mem_cons_of_mem x ht, he⟩

lemma mergeAppend_eq (s : AppState) (batch : List Json) (now : String) :
    mergeAppend s batch now =
      saveTodos { s with
        todos := s.todos ++ reassignIds batch
          ((if s.todos.length > 0 then maxIdOf s.todos else 0) + 1),
        todoIdCounter := getNextId (s.todos ++ reassignIds batch
          ((if s.todos.length > 0 then maxIdOf s.todos else 0) + 1)) } now := rfl

/-- Claim C4: deleting an id held by no task is a no-op that neither
mutates nor persists; deleting a present id (with pairwise-distinct ids)
removes exactly that task, keeps every other task in order, leaves the
counter alone, and persists exactly once. The delete is modelled as
invoked directly, with the view in sync and the visual delay elided, as
the claim prescribes. -/
theorem C4_delete_contract (s : AppState) (id : Int) (now : String) :
    ((∀ t ∈ s.todos, idEq t id = false) → deleteTodo s id now = s) ∧
    ((s.todos.map taskId).Nodup →
      ∀ t ∈ s.todos, idEq t id = true →
        ∃ l1 l2, s.todos = l1 ++ t :: l2 ∧
          (deleteTodo s id now).todos = l1 ++ l2 ∧
          (deleteTodo s id now).writes =
            s.writes ++ [envelopeOf (l1 ++ l2) s.todoIdCounter now]) := by
  constructor
  · intro hnone
    unfold deleteTodo
    split_ifs with hany
    · obtain ⟨t, ht, htrue⟩ := List.any_eq_true.mp hany
      rw [hnone t ht] at htrue
      exact absurd htrue (by simp)
    · rfl
  · intro hn t ht hid
    have hany : s.todos.any (fun u => idEq u id) = true :=
      List.any_eq_true.mpr ⟨t, ht, hid⟩
    have hdel : deleteTodo s id now =
        saveTodos { s with todos := s.todos.filter (fun u => !idEq u id) } now := by
      unfold deleteTodo
      rw [if_pos hany]
    obtain ⟨l1, l2, hsplit⟩ := List.append_of_mem ht
    have hmap := hn
    rw [hsplit, List.map_append, List.map_cons] at hmap
    obtain ⟨hn1, hn2, hdj⟩ := List.nodup_append.mp hmap
    have htnotin : taskId t ∉ l2.map taskId := (List.nodup_cons.mp hn2).1
    have htid : taskId t = id := taskId_of_idEq t id hid
    have hfalse : ∀ u, (u ∈ l1 ∨ u ∈ l2) → idEq u id = false := by
      intro u hu
      cases h2 : idEq u id with
      | false => rfl
      | true =>
          have huid : taskId u = id := taskId_of_idEq u id h2
          have hsame : taskId u = taskId t := by rw [huid, htid]
          rcases hu with hu | hu
          · exact absurd (hsame ▸ List.mem_cons_self (taskId t) (l2.map taskId))
              (hdj (List.mem_map_of_mem taskId hu))
          · exact absurd (hsame ▸ List.mem_map_of_mem taskId hu) htnotin
    have hl1 : l1.filter (fun u => !idEq u id) = l1 :=
      List.filter_eq_self.mpr (fun u hu => by simp [hfalse u (Or.inl hu)])
    have hl2 : l2.filter (fun u => !idEq u id) = l2 :=
      List.filter_eq_self.mpr (fun u hu => by simp [hfalse u (Or.inr hu)])
    have hfilter : s.todos.filter (fun u => !idEq u id) = l1 ++ l2 := by
      rw [hsplit, List.filter_append, List.filter_cons]
      simp only [hid, Bool.not_true]
      rw [if_neg (by simp), hl1, hl2]
    refine ⟨l1, l2, hsplit, ?_, ?_⟩
    · rw [hdel]
      show s.todos.filter (fun u => !idEq u id) = l1 ++ l2
      exact hfilter
    · rw [hdel]
      show s.writes ++ [envelopeOf (s.todos.filter (fun u => !idEq u id))
        s.todoIdCounter now] = _
      rw [hfilter]

/-- Claim C4, witness: deleting id 1 from a single-task registry removes
that task and persists the emptied envelope once. -/
theorem C4_witness :
    ∃ l1 l2,
      (⟨[newTodo 1 "a" "t0"], 2, none, []⟩ : AppState).todos =
        l1 ++ newTodo 1 "a" "t0" :: l2 ∧
      (deleteTodo ⟨[newTodo 1 "a" "t0"], 2, none, []⟩ 1 "t1").todos = l1 ++ l2 ∧
      (deleteTodo ⟨[newTodo 1 "a" "t0"], 2, none, []⟩ 1 "t1").writes =
        (⟨[newTodo 1 "a" "t0"], 2, none, []⟩ : AppState).writes ++
          [envelopeOf (l1 ++ l2)
            (⟨[newTodo 1 "a" "t0"], 2, none, []⟩ : AppState).todoIdCounter "t1"] :=
  (C4_delete_contract ⟨[newTodo 1 "a" "t0"], 2, none, []⟩ 1 "t1").2 (by decide)
    (newTodo 1 "a" "t0") (List.mem_singleton.mpr rfl) (by decide)

/-- Claim C5: merge-append over a nonempty existing collection with
maximum id M and a batch of N valid tasks appends the batch after the
existing tasks in their original relative order with ids reassigned to
M+1 .. M+N, leaves every existing task (and id) unchanged, recomputes
the counter to M+N+1, and persists exactly once for the whole batch. -/
theorem C5_merge_append (s : AppState) (batch : List Json) (now : String)
    (hne : s.todos ≠ []) (hb : ∀ t ∈ batch, isValidTodo t = true) :
    (mergeAppend s batch now).todos =
      s.todos ++ reassignIds batch (maxIdOf s.todos + 1) ∧
    (reassignIds batch (maxIdOf s.todos + 1)).map taskId =
      (List.range batch.length).map (fun k : Nat => maxIdOf s.todos + 1 + (k : Int)) ∧
    (∀ (k : Nat) (hk : k < batch.length),
        (reassignIds batch (maxIdOf s.todos + 1)).get
            ⟨k, by rw [length_reassignIds]; exact hk⟩ =
          (batch.get ⟨k, hk⟩).setField "id"
            (Json.num (maxIdOf s.todos + 1 + (k : Int)))) ∧
    (batch ≠ [] →
        (mergeAppend s batch now).todoIdCounter =
          maxIdOf s.todos + (batch.length : Int) + 1) ∧
    (mergeAppend s batch now).writes = s.writes ++
      [envelopeOf (s.todos ++ reassignIds batch (maxIdOf s.todos + 1))
        (getNextId (s.todos ++ reassignIds batch (maxIdOf s.todos + 1))) now] := by
  have hM : (if s.todos.length > 0 then maxIdOf s.todos else 0) = maxIdOf s.todos :=
    if_pos (List.length_pos.mpr hne)
  have hmerge : mergeAppend s batch now =
      saveTodos { s with
        todos := s.todos ++ reassignIds batch (maxIdOf s.todos + 1),
        todoIdCounter :=
          getNextId (s.todos ++ reassignIds batch (maxIdOf s.todos + 1)) } now := by
    rw [mergeAppend_eq, hM]
  refine ⟨by rw [hmerge]; rfl, reassignIds_map_taskId batch _ hb,
    reassignIds_get batch _, ?_, by rw [hmerge]; rfl⟩
  intro hbne
  rw [hmerge]
  show getNextId (s.todos ++ reassignIds batch (maxIdOf s.todos + 1)) = _
  have happne : s.todos ++ reassignIds batch (maxIdOf s.todos + 1) ≠ [] := by
    intro hcontra
    exact hne (List.append_eq_nil.mp hcontra).1
  have hgn : getNextId (s.todos ++ reassignIds batch (maxIdOf s.todos + 1)) =
      maxIdOf (s.todos ++ reassignIds batch (maxIdOf s.todos + 1)) + 1 := by
    unfold getNextId
    rw [if_pos (List.length_pos.mpr happne)]
  have hlenpos : 0 < batch.length := List.length_pos.mpr hbne
  -- the maximum of the merged list is M + N
  have hupper : maxIdOf (s.todos ++ reassignIds batch (maxIdOf s.todos + 1)) ≤
      maxIdOf s.todos + (batch.length : Int) := by
    obtain ⟨t, ht, he⟩ := maxIdOf_attained _ happne
    rw [he]
    rcases List.mem_append.mp ht with h3 | h3
    · have := le_maxIdOf_of_mem s.todos t h3
      omega
    · have := (reassignIds_id_bounds batch _ hb t h3).2
      omega
  have hlower : maxIdOf s.todos + (batch.length : Int) ≤
      maxIdOf (s.todos ++ reassignIds batch (maxIdOf s.todos + 1)) := by
    have hmem : maxIdOf s.todos + 1 + ((batch.length - 1 : Nat) : Int) ∈
        (reassignIds batch (maxIdOf s.todos + 1)).map taskId := by
      rw [reassignIds_map_taskId batch _ hb]
      exact List.mem_map_of_mem _ (List.mem_range.mpr (by omega))
    obtain ⟨u, hu, hue⟩ := List.mem_map.mp hmem
    have h4 := le_maxIdOf_of_mem _ u (List.mem_append_right s.todos hu)
    rw [hue] at h4
    have hcast : ((batch.length - 1 : Nat) : Int) = (batch.length : Int) - 1 := by
      omega
    omega
  omega

/-- Claim C5, witness: merging one valid task with arriving id 9 into a
single-task registry with maximum id 1 appends it with reassigned id. -/
theorem C5_witness :
    (mergeAppend ⟨[newTodo 1 "a" "t0"], 2, none, []⟩ [newTodo 9 "b" "t0"] "t1").todos =
      [newTodo 1 "a" "t0"] ++
        reassignIds [newTodo 9 "b" "t0"] (maxIdOf [newTodo 1 "a" "t0"] + 1) :=
  (C5_merge_append ⟨[newTodo 1 "a" "t0"], 2, none, []⟩ [newTodo 9 "b" "t0"] "t1"
    (fun h => List.noConfusion h) (by decide)).1

/-- Claim C6: loading what a save of structurally valid tasks T and
positive counter C wrote reproduces T exactly and yields a counter at
least C, with no storage error. -/
theorem C6_save_load_roundtrip (T : List Json) (C : Int) (slot0 : Option StoredText)
    (w0 : List Json) (now now2 : String)
    (hT : ∀ t ∈ T, isValidTodo t = true) (hC : 0 < C) :
    (loadTodos (saveTodos ⟨T, C, slot0, w0⟩ now) now2).1.todos = T ∧
    C ≤ (loadTodos (saveTodos ⟨T, C, slot0, w0⟩ now) now2).1.todoIdCounter ∧
    (loadTodos (saveTodos ⟨T, C, slot0, w0⟩ now) now2).2 = false := by
  have hsave : saveTodos ⟨T, C, slot0, w0⟩ now =
      ⟨T, C, some (StoredText.json (envelopeOf T C now)), w0 ++ [envelopeOf T C now]⟩ := rfl
  rw [hsave, loadTodos_envelope, loadCounter_envelopeOf, List.filter_eq_self.mpr hT,
    if_neg (by omega)]
  exact ⟨rfl, le_refl C, rfl⟩

/-- Claim C6, witness: one valid task and counter 2 survive the
round-trip. -/
theorem C6_witness :
    (loadTodos (saveTodos ⟨[newTodo 1 "a" "t0"], 2, none, []⟩ "t1") "t2").1.todos =
      [newTodo 1 "a" "t0"] :=
  (C6_save_load_roundtrip [newTodo 1 "a" "t0"] 2 none [] "t1" "t2" (by decide)
    (by decide)).1

/-- Claim C7: loading a legacy bare-array slot filters it to the valid
tasks, sets the counter to max(id)+1 (or 1 if none survive), immediately
re-saves in the envelope format as a side effect of the load, and a
second load then reads that envelope back to the same task set and
counter with no error — the legacy upgrade is idempotent. -/
theorem C7_legacy_upgrade (ts : List Json) (now now2 : String) :
    (loadTodos (initState (some (StoredText.json (Json.arr ts)))) now).1.todos =
      ts.filter isValidTodo ∧
    (loadTodos (initState (some (StoredText.json (Json.arr ts)))) now).1.todoIdCounter =
      getNextId (ts.filter isValidTodo) ∧
    (loadTodos (initState (some (StoredText.json (Json.arr ts)))) now).1.slot =
      some (StoredText.json (envelopeOf (ts.filter isValidTodo)
        (getNextId (ts.filter isValidTodo)) now)) ∧
    (loadTodos (loadTodos (initState (some (StoredText.json (Json.arr ts)))) now).1
        now2).1.todos = ts.filter isValidTodo ∧
    (loadTodos (loadTodos (initState (some (StoredText.json (Json.arr ts)))) now).1
        now2).1.todoIdCounter = getNextId (ts.filter isValidTodo) ∧
    (loadTodos (loadTodos (initState (some (StoredText.json (Json.arr ts)))) now).1
        now2).2 = false := by
  have h1 : (loadTodos (initState (some (StoredText.json (Json.arr ts)))) now).1 =
      ⟨ts.filter isValidTodo, getNextId (ts.filter isValidTodo),
       some (StoredText.json (envelopeOf (ts.filter isValidTodo)
         (getNextId (ts.filter isValidTodo)) now)),
       [envelopeOf (ts.filter isValidTodo) (getNextId (ts.filter isValidTodo)) now]⟩ := rfl
  rw [h1, loadTodos_envelope, loadCounter_envelopeOf,
    List.filter_eq_self.mpr (allValid_filter ts), ite_self]
  exact ⟨rfl, rfl, rfl, rfl, rfl, rfl⟩

/-- Claim C9: import fails with the invalid-format error exactly when
the supplied content does not parse or does not parse to an array, and
with the no-valid-tasks error exactly when it parses to an array none of
whose entries passes the validity predicate (a record whose id field is
a number and whose text field is a string); in both failure cases the
collection, counter, stored slot and write log are all unchanged. -/
theorem C9_import_errors (s : AppState) (content : ImportContent) (replace : Bool)
    (now : String) :
    ((importTodos s content replace now).2 = ImportResult.formatError ↔
      content = ImportContent.malformed ∨
        ∃ j, content = ImportContent.json j ∧ j.isArray = false) ∧
    ((importTodos s content replace now).2 = ImportResult.emptyError ↔
      ∃ entries, content = ImportContent.json (Json.arr entries) ∧
        entries.filter isValidTodo = []) ∧
    (((importTodos s content replace now).2 = ImportResult.formatError ∨
        (importTodos s content replace now).2 = ImportResult.emptyError) →
      (importTodos s content replace now).1 = s) ∧
    (∀ t, isValidTodo t = true ↔
      ((∃ n : Int, t.getField "id" = some (Json.num n)) ∧
        ∃ s2 : String, t.getField "text" = some (Json.str s2))) := by
  refine ⟨?_, ?_, ?_, isValidTodo_eq_true_iff⟩
  · cases content with
    | malformed => simp [importTodos]
    | json j =>
        cases j with
        | arr entries =>
            by_cases hlen : (entries.filter isValidTodo).length > 0
            · rw [importTodos_success_eq s entries replace now hlen]
              constructor
              · intro hcontra
                cases hcontra
              · rintro (hcontra | ⟨j2, hj2, hA⟩)
                · cases hcontra
                · cases hj2
                  simp [Json.isArray] at hA
            · rw [importTodos_empty_eq s entries replace now hlen]
              constructor
              · intro hcontra
                cases hcontra
              · rintro (hcontra | ⟨j2, hj2, hA⟩)
                · cases hcontra
                · cases hj2
                  simp [Json.isArray] at hA
        | null => simp [importTodos, Json.isArray]
        | bool b => simp [importTodos, Json.isArray]
        | num n => simp [importTodos, Json.isArray]
        | str s2 => simp [importTodos, Json.isArray]
        | obj fields => simp [importTodos, Json.isArray]
  · cases content with
    | malformed =>
        constructor
        · intro hcontra
          cases hcontra
        · rintro ⟨entries, hcontra, -⟩
          cases hcontra
    | json j =>
        cases j with
        | arr entries =>
            by_cases hlen : (entries.filter isValidTodo).length > 0
            · rw [importTodos_success_eq s entries replace now hlen]
              constructor
              · intro hcontra
                cases hcontra
              · rintro ⟨entries2, hj2, hnil⟩
                cases hj2
                rw [hnil] at hlen
                simp at hlen
            · rw [importTodos_empty_eq s entries replace now hlen]
              simp only [List.length_pos, not_not] at hlen
              exact ⟨fun _ => ⟨entries, rfl, by
                  rcases List.eq_nil_or_concat (entries.filter isValidTodo) with hD | ⟨l, a, hD⟩
                  · exact hD
                  · rw [hD] at hlen
                    simp at hlen⟩,
                fun _ => rfl⟩
        | null =>
            constructor
            · intro hcontra
              cases hcontra
            · rintro ⟨entries, hcontra, -⟩
              cases hcontra
        | bool b =>
            constructor
            · intro hcontra
              cases hcontra
            · rintro ⟨entries, hcontra, -⟩
              cases hcontra
        | num n =>
            constructor
            · intro hcontra
              cases hcontra
            · rintro ⟨entries, hcontra, -⟩
              cases hcontra
        | str s2 =>
            constructor
            · intro hcontra
              cases hcontra
            · rintro ⟨entries, hcontra, -⟩
              cases hcontra
        | obj fields =>
            constructor
            · intro hcontra
              cases hcontra
            · rintro ⟨entries, hcontra, -⟩
              cases hcontra
  · cases content with
    | malformed => intro _; rfl
    | json j =>
        cases j with
        | arr entries =>
            by_cases hlen : (entries.filter isValidTodo).length > 0
            · rw [importTodos_success_eq s entries replace now hlen]
              rintro (hcontra | hcontra) <;> cases hcontra
            · rw [importTodos_empty_eq s entries replace now hlen]
              intro _
              rfl
        | null => intro _; rfl
        | bool b => intro _; rfl
        | num n => intro _; rfl
        | str s2 => intro _; rfl
        | obj fields => intro _; rfl

/-- Claim C9, witness: content parsing to the number 7 is rejected as an
invalid format, with the state untouched. -/
theorem C9_witness :
    ((importTodos (initState none) (ImportContent.json (Json.num 7)) true "t1").2 =
      ImportResult.formatError) ∧
    (importTodos (initState none) (ImportContent.json (Json.num 7)) true "t1").1 =
      initState none :=
  ⟨((C9_import_errors (initState none) (ImportContent.json (Json.num 7)) true "t1").1).mpr
      (Or.inr ⟨Json.num 7, rfl, rfl⟩),
    ((C9_import_errors (initState none) (ImportContent.json (Json.num 7)) true "t1").2.2.1)
      (Or.inl (((C9_import_errors (initState none) (ImportContent.json (Json.num 7)) true
        "t1").1).mpr (Or.inr ⟨Json.num 7, rfl, rfl⟩)))⟩

/-- Claim C10: for a state produced by any sequence of registry
operations, exporting and re-importing with the replace strategy
reproduces the task sequence element-wise and recomputes the counter to
max id + 1 when the collection is nonempty; the export of an empty
collection is rejected on re-import as holding no valid tasks, leaving
the state unchanged. -/
theorem C10_export_import_replace (slot0 : Option StoredText) (ops : List Op)
    (s : AppState) (now : String) (hs : s = runOps (initState slot0) ops) :
    (s.todos ≠ [] →
      (importTodos s (ImportContent.json (exportTodos s)) true now).1.todos = s.todos ∧
      (importTodos s (ImportContent.json (exportTodos s)) true now).1.todoIdCounter =
        maxIdOf s.todos + 1 ∧
      (importTodos s (ImportContent.json (exportTodos s)) true now).2 =
        ImportResult.success s.todos.length) ∧
    (s.todos = [] →
      importTodos s (ImportContent.json (exportTodos s)) true now =
        (s, ImportResult.emptyError)) := by
  have hv : AllValid s := by
    rw [hs]
    exact allValid_runOps ops _ (allValid_initState slot0)
  have hfilter : s.todos.filter isValidTodo = s.todos := List.filter_eq_self.mpr hv
  have hexp : exportTodos s = Json.arr s.todos := rfl
  constructor
  · intro hne
    have hlen : (s.todos.filter isValidTodo).length > 0 := by
      rw [hfilter]
      exact List.length_pos.mpr hne
    rw [hexp, importTodos_success_eq s s.todos true now hlen]
    refine ⟨?_, ?_, ?_⟩
    · show s.todos.filter isValidTodo = s.todos
      exact hfilter
    · show getNextId (s.todos.filter isValidTodo) = maxIdOf s.todos + 1
      rw [hfilter]
      unfold getNextId
      rw [if_pos (List.length_pos.mpr hne)]
    · show ImportResult.success (s.todos.filter isValidTodo).length = _
      rw [hfilter]
  · intro hnil
    rw [hexp, hnil, importTodos_empty_eq s [] true now (by simp)]

/-- Claim C10, witness: the empty collection produced by no operations
exports to an artifact whose re-import is rejected as empty. -/
theorem C10_witness :
    importTodos (runOps (initState none) [])
        (ImportContent.json (exportTodos (runOps (initState none) []))) true "t1" =
      (runOps (initState none) [], ImportResult.emptyError) :=
  (C10_export_import_replace none [] (runOps (initState none) []) "t1" rfl).2 rfl

end TodoList
